import Mathlib

/-!
Shallow embedding of the Line Movement and Favorability Detection Engine of
player_props.py: the probability model (american_to_implied,
get_projected_value), the baseline store realized as the SQLite table
player_props (INSERT OR REPLACE upsert, earliest-record query, purge of
commenced games), and the favorability classifier and ranker
(find_favorable_lines).  Python float arithmetic on these formulas is
modelled over the rationals; a Python ValueError raised by
american_to_implied on zero odds is modelled as none.
-/

namespace PlayerProps

/-- Embeds american_to_implied (player_props.py lines 183-198): for positive
odds 100/(odds+100), for negative odds abs(odds)/(abs(odds)+100); the Python
ValueError on zero odds is modelled as none. -/
def american_to_implied (odds : ℤ) : Option ℚ :=
  if odds = 0 then none
  else if 0 < odds then some (100 / ((odds : ℚ) + 100))
  else some (|(odds : ℚ)| / (|(odds : ℚ)| + 100))

/-- Embeds get_projected_value (lines 200-206): implied probabilities of the
two sides are normalized to sum to 1 and the half-point straddle is averaged.
none propagates the ValueError raised on zero odds. -/
def get_projected_value (over_odds under_odds : ℤ) (point_value : ℚ) : Option ℚ := do
  let over_prob ← american_to_implied over_odds
  let under_prob ← american_to_implied under_odds
  let total_prob := over_prob + under_prob
  let normalized_over_prob := over_prob / total_prob
  let normalized_under_prob := under_prob / total_prob
  some (normalized_over_prob * (point_value + 1/2) +
        normalized_under_prob * (point_value - 1/2))

/-- One outcome dictionary of a market as delivered by the odds API
(description = player, name = outcome label, price = American odds, point
optional).  The projected_value field is populated upstream by the Over/Under
pairing step of find_favorable_lines (lines 208-224, 302-303); it only feeds
display fields of the result entries, so the classifier below takes the
already-paired outcome lists as input. -/
structure Outcome where
  description : String
  name : String
  price : ℤ
  point : Option ℚ := none
  projected_value : Option ℚ := none
deriving DecidableEq, Repr

/-- Embeds calculate_point_delta (lines 246-263): for an Over outcome that
carries a point, the reference (pinnacle) point minus the current point; for
any other point-bearing outcome the current point minus the reference point;
none when the current outcome has no point.  Missing reference points default
to 0 as in the Python dict.get calls. -/
def calculate_point_delta (outcome pin_outcome : Outcome) : Option ℚ :=
  if outcome.name = "Over" ∧ outcome.point.isSome then
    some (pin_outcome.point.getD 0 - outcome.point.getD 0)
  else if outcome.point.isSome then
    some (outcome.point.getD 0 - pin_outcome.point.getD 0)
  else none

/-- One row of the SQLite table player_props created by store_props
(lines 725-739).  Timestamps are modelled as integers: the table stores
Eastern wall-clock TEXT of the fixed-width form YYYY-MM-DD HH:MM:SS produced
by convert_utc_to_et, whose lexicographic SQL ordering agrees with the
chronological ordering of the encoded second-resolution instants, all in the
single US Eastern reference zone.  The odds column holds the American price
integer of the stored outcome. -/
structure Row where
  event_id : String
  event_name : String
  sport_key : String
  market_type : String
  outcome_type : String
  player_name : String
  point_value : Option ℚ
  odds : ℤ
  event_commence_time : ℤ
  updated_dttm : ℤ
deriving DecidableEq, Repr

/-- Primary key of the player_props table: (event_id, market_type,
outcome_type, player_name) (line 737). -/
def rowKey (r : Row) : String × String × String × String :=
  (r.event_id, r.market_type, r.outcome_type, r.player_name)

/-- Embeds the INSERT OR REPLACE statement of store_props (lines 755-760):
any live row with the same primary key is replaced by the new row. -/
def insert_or_replace (db : List Row) (r : Row) : List Row :=
  db.filter (fun x => ¬ rowKey x = rowKey r) ++ [r]

/-- Row scan selecting the first-encountered row of minimal updated_dttm,
the row ORDER BY updated_dttm ASC LIMIT 1 returns. -/
def pickMinAux (acc : Option Row) : List Row → Option Row
  | [] => acc
  | r :: rs =>
      pickMinAux
        (match acc with
         | none => some r
         | some b => if r.updated_dttm < b.updated_dttm then some r else some b)
        rs

/-- Embeds the earliest-entry query of find_favorable_lines (lines 343-348):
SELECT point_value, odds FROM player_props WHERE market_type=? AND
outcome_type=? AND player_name=? ORDER BY updated_dttm ASC LIMIT 1.
Note the WHERE clause does not constrain event_id. -/
def earliestQuery (db : List Row)
    (market_type outcome_type player_name : String) : Option (Option ℚ × ℤ) :=
  let hits := db.filter (fun r =>
    r.market_type == market_type && r.outcome_type == outcome_type &&
    r.player_name == player_name)
  (pickMinAux none hits).map (fun r => (r.point_value, r.odds))

/-- Embeds remove_commenced_games (lines 42-60): DELETE FROM player_props
WHERE event_commence_time < now, where now is the current US Eastern clock
reading; rows strictly before now are deleted, all others kept. -/
def remove_commenced_games (now : ℤ) (db : List Row) : List Row :=
  db.filter (fun r => ¬ r.event_commence_time < now)

/-- Embeds the is_favorable decision of find_favorable_lines (lines 321-380):
given the outcome label, the reference (pinnacle) point and odds and the
earliest stored (point, odds) pair, produce Y, N, or none (unknown). -/
def is_favorable (outcome_type : String) (pin_current_point : Option ℚ)
    (pin_current_odds : ℤ) (earliest : Option (Option ℚ × ℤ)) :
    Option String :=
  if outcome_type = "Over" ∨ outcome_type = "Under" ∨ outcome_type = "Yes" then
    match earliest with
    | some (earliest_point, earliest_odds) =>
      if outcome_type = "Over" then
        match pin_current_point, earliest_point with
        | some pc, some ep =>
            if pc > ep then some "Y"
            else if pc = ep ∧ pin_current_odds < earliest_odds then some "Y"
            else some "N"
        | _, _ => none
      else if outcome_type = "Under" then
        match pin_current_point, earliest_point with
        | some pc, some ep =>
            if pc < ep then some "Y"
            else if pc = ep ∧ pin_current_odds < earliest_odds then some "Y"
            else some "N"
        | _, _ => none
      else
        if pin_current_odds < earliest_odds then some "Y" else some "N"
    | none => none
  else none

/-- One classified comparison produced by find_favorable_lines (the
result_entry dictionary, lines 387-416).  Fields that only feed rendering
(commence_time, event_name, source, bet_type, the pinnacle display string and
the absolute-value copies) are omitted; the Python key named type is called
outcome_type here. -/
structure ResultEntry where
  player : String
  outcome_type : String
  odds : ℤ
  delta : ℚ
  is_favorable : Option String
  point_move : Option ℚ
  projected_value : Option ℚ
  pinnacle_projected_val : Option ℚ
  projected_val_delta : Option ℚ
  odds_pct_move : Option ℚ
  point : Option ℚ
  point_delta : ℚ
deriving DecidableEq, Repr

/-- Embeds one iteration of the outcome loop of find_favorable_lines
(lines 304-432) for one non-reference outcome: match the pinnacle outcome by
(description, name); skip on no match; skip (the caught ValueError,
lines 310-315) when either price is zero; otherwise build the result entry
and assign it to the different-points bucket (first component) or the
same-points bucket (second component) or drop it.  The odds_pct_move
subtraction (line 354) is modelled with Option; in Python an earliest row
with zero stored odds would raise there uncaught. -/
def processOutcome (db : List Row) (market_type : String)
    (pinnacle_outcomes : List Outcome) (outcome : Outcome) :
    List ResultEntry × List ResultEntry :=
  match pinnacle_outcomes.find? (fun o =>
      o.description == outcome.description && o.name == outcome.name) with
  | none => ([], [])
  | some pin_outcome =>
    match american_to_implied pin_outcome.price,
          american_to_implied outcome.price with
    | some pin_prob, some other_prob =>
      let prob_delta := pin_prob - other_prob
      let point_delta := calculate_point_delta outcome pin_outcome
      let outcome_type := outcome.name
      let player_name := outcome.description
      let current_point := outcome.point
      let projected_value := outcome.projected_value
      let pin_projected_value := pin_outcome.projected_value
      let pin_current_point := pin_outcome.point
      let pin_current_odds := pin_outcome.price
      let projected_val_delta :=
        match pin_projected_value, projected_value with
        | some a, some b => some (a - b)
        | _, _ => none
      let earliest :=
        if outcome_type = "Over" ∨ outcome_type = "Under" ∨
           outcome_type = "Yes" then
          earliestQuery db market_type outcome_type player_name
        else none
      let point_move :=
        match earliest, pin_current_point with
        | some (some earliest_point, _), some pc => some (pc - earliest_point)
        | _, _ => none
      let odds_pct_move :=
        match earliest with
        | some (_, earliest_odds) => do
            let a ← american_to_implied pin_current_odds
            let b ← american_to_implied earliest_odds
            some (a - b)
        | none => none
      let fav := is_favorable outcome_type pin_current_point pin_current_odds
        earliest
      let entry : ResultEntry := {
        player := player_name
        outcome_type := outcome_type
        odds := outcome.price
        delta := prob_delta
        is_favorable := fav
        point_move := point_move
        projected_value := projected_value
        pinnacle_projected_val := pin_projected_value
        projected_val_delta := projected_val_delta
        odds_pct_move := odds_pct_move
        point := current_point
        point_delta := point_delta.getD 0 }
      if ¬ (outcome_type = "No" ∨ outcome_type = "Yes" ∨
            outcome_type = "Under" ∨ outcome_type = "Over") then ([], [])
      else if current_point.isNone then
        if ¬ outcome_type = "No" ∧ prob_delta ≥ 1/100 ∧
           pin_outcome.price ≤ 300 then ([], [entry])
        else ([], [])
      else
        if ((outcome_type = "Over" ∧
               current_point.getD 0 < pin_outcome.point.getD 0) ∨
            (outcome_type = "Under" ∧
               current_point.getD 0 > pin_outcome.point.getD 0)) ∧
           pin_prob ≥ 1/2 ∧ (point_delta.getD 0 ≥ 1 ∨ prob_delta ≥ 2) then
          ([entry], [])
        else if current_point.getD 0 = pin_outcome.point.getD 0 ∧
                prob_delta > 3 then
          ([], [entry])
        else ([], [])
    | _, _ => ([], [])

/-- The outcome loop of find_favorable_lines over a whole market, collecting
both buckets in iteration order. -/
def processOutcomes (db : List Row) (market_type : String)
    (pinnacle_outcomes outcomes : List Outcome) :
    List ResultEntry × List ResultEntry :=
  outcomes.foldr
    (fun o acc =>
      let c := processOutcome db market_type pinnacle_outcomes o
      (c.1 ++ acc.1, c.2 ++ acc.2))
    ([], [])

/-- The descending sort order of the ranker (lines 438-440): Python sorts by
the key tuple (point_delta, delta) with reverse=True, so an entry precedes
another exactly when its key tuple is lexicographically at least the other. -/
def entryLE (a b : ResultEntry) : Prop :=
  b.point_delta < a.point_delta ∨
  (b.point_delta = a.point_delta ∧ b.delta ≤ a.delta)

instance : DecidableRel entryLE := fun a b => by
  unfold entryLE; infer_instance

instance : IsTotal ResultEntry entryLE where
  total a b := by
    unfold entryLE
    rcases lt_trichotomy a.point_delta b.point_delta with h | h | h
    · exact Or.inr (Or.inl h)
    · rcases le_total b.delta a.delta with hd | hd
      · exact Or.inl (Or.inr ⟨h.symm, hd⟩)
      · exact Or.inr (Or.inr ⟨h, hd⟩)
    · exact Or.inl (Or.inl h)

instance : IsTrans ResultEntry entryLE where
  trans a b c hab hbc := by
    unfold entryLE at *
    rcases hab with h1 | ⟨h1, d1⟩
    · rcases hbc with h2 | ⟨h2, d2⟩
      · exact Or.inl (h2.trans h1)
      · exact Or.inl (h2 ▸ h1)
    · rcases hbc with h2 | ⟨h2, d2⟩
      · exact Or.inl (h1 ▸ h2)
      · exact Or.inr ⟨h2.trans h1, d2.trans d1⟩

/-- The stable descending sort applied to each bucket (lines 438-440). -/
def sortResults (l : List ResultEntry) : List ResultEntry :=
  l.insertionSort entryLE

/-- Embeds the classifier and ranker for one market of one non-reference
bookmaker: the outcome loop followed by the final sort of both buckets
(lines 304-442). -/
def find_favorable_lines (db : List Row) (market_type : String)
    (pinnacle_outcomes outcomes : List Outcome) :
    List ResultEntry × List ResultEntry :=
  let r := processOutcomes db market_type pinnacle_outcomes outcomes
  (sortResults r.1, sortResults r.2)

/-- Convenience constructor for concrete player_props rows. -/
def mkRow (event_id market_type outcome_type player_name : String)
    (point_value : Option ℚ) (odds : ℤ) (commence updated : ℤ) : Row :=
  { event_id := event_id, event_name := "", sport_key := "americanfootball_nfl",
    market_type := market_type, outcome_type := outcome_type,
    player_name := player_name, point_value := point_value, odds := odds,
    event_commence_time := commence, updated_dttm := updated }

/-- Concrete entry carrying a given (point_delta, delta) ranking key. -/
def rankEntry (pd d : ℚ) : ResultEntry :=
  { player := "P", outcome_type := "Over", odds := -110, delta := d,
    is_favorable := none, point_move := none, projected_value := none,
    pinnacle_projected_val := none, projected_val_delta := none,
    odds_pct_move := none, point := some 5, point_delta := pd }

/-- First observation of a key: rushing-yards Over 5.5 at -110, timestamp 1. -/
def c1RowFirst : Row :=
  mkRow "evt1" "player_rush_yds" "Over" "Josh Jacobs" (some (11/2)) (-110) 100 1

/-- Later observation of the same key: the line moved to 6.5 at -115. -/
def c1RowSecond : Row :=
  mkRow "evt1" "player_rush_yds" "Over" "Josh Jacobs" (some (13/2)) (-115) 100 2

/-- Pre-existing record for the same market, outcome label and player under a
different event id, with an earlier update timestamp. -/
def c2RowOld : Row :=
  mkRow "evt1" "player_rush_yds" "Over" "Josh Jacobs" (some (11/2)) (-110) 100 1

/-- Freshly stored observation under a second event id. -/
def c2RowNew : Row :=
  mkRow "evt2" "player_rush_yds" "Over" "Josh Jacobs" (some (15/2)) (-120) 200 2

/-- Record whose event commences one second before the purge clock reading. -/
def c8Before : Row := mkRow "e1" "player_rush_yds" "Over" "A" none (-110) 99 1

/-- Record whose event commences one second after the purge clock reading. -/
def c8After : Row := mkRow "e2" "player_rush_yds" "Over" "B" none (-110) 101 1

/-- An outcome quoted at American odds zero, for which the probability model
fails. -/
def c6Outcome : Outcome := { description := "P", name := "Yes", price := 0 }

/-- A healthy binary outcome processed after the zero-odds one. -/
def c6Other : Outcome := { description := "Q", name := "Yes", price := 200 }

/-- Current quote: rushing-yards Over 5.0 at -110. -/
def c4Outcome : Outcome :=
  { description := "A", name := "Over", price := -110, point := some 5 }

/-- Reference quote: rushing-yards Over 6.5 at -120. -/
def c4Pin : Outcome :=
  { description := "A", name := "Over", price := -120, point := some (13/2) }

/-! Theorems. -/

/-- The implied probability is defined exactly for nonzero odds. -/
theorem american_to_implied_none_iff (odds : ℤ) :
    american_to_implied odds = none ↔ odds = 0 := by
  unfold american_to_implied
  split_ifs with h0 hpos <;> simp [h0]

/-- Nonzero odds always produce an implied probability. -/
theorem american_to_implied_isSome {odds : ℤ} (h : odds ≠ 0) :
    ∃ q, american_to_implied odds = some q := by
  unfold american_to_implied
  split_ifs with h0 hpos
  · exact absurd h0 h
  · exact ⟨_, rfl⟩
  · exact ⟨_, rfl⟩

/-- Every produced implied probability lies strictly between 0 and 1. -/
theorem american_to_implied_bounds {odds : ℤ} {q : ℚ}
    (h : american_to_implied odds = some q) : 0 < q ∧ q < 1 := by
  unfold american_to_implied at h
  split_ifs at h with h0 hpos
  · obtain rfl := Option.some.inj h
    have hq : (0:ℚ) < (odds:ℚ) := by exact_mod_cast hpos
    have hden : (0:ℚ) < (odds:ℚ) + 100 := by linarith
    refine ⟨div_pos (by norm_num) hden, ?_⟩
    rw [div_lt_one hden]
    linarith
  · obtain rfl := Option.some.inj h
    have hneg : odds < 0 := by omega
    have hne : (odds:ℚ) ≠ 0 := by exact_mod_cast h0
    have habs : (0:ℚ) < |(odds:ℚ)| := abs_pos.mpr hne
    have hden : (0:ℚ) < |(odds:ℚ)| + 100 := by linarith
    refine ⟨div_pos habs hden, ?_⟩
    rw [div_lt_one hden]
    linarith

/-- C5: for every nonzero American odds value the implied probability equals
100/(odds+100) for positive odds and abs(odds)/(abs(odds)+100) for negative
odds, always lies strictly in (0, 1), and both +100 and -100 map to 1/2. -/
theorem C5_implied_probability :
    (∀ odds : ℤ, odds ≠ 0 → ∃ q : ℚ, american_to_implied odds = some q ∧
      (0 < odds → q = 100 / ((odds : ℚ) + 100)) ∧
      (odds < 0 → q = |(odds : ℚ)| / (|(odds : ℚ)| + 100)) ∧
      0 < q ∧ q < 1) ∧
    american_to_implied 100 = some (1/2) ∧
    american_to_implied (-100) = some (1/2) := by
  refine ⟨?_, by norm_num [american_to_implied], by norm_num [american_to_implied]⟩
  intro odds h
  obtain ⟨q, hq⟩ := american_to_implied_isSome h
  obtain ⟨h0, h1⟩ := american_to_implied_bounds hq
  refine ⟨q, hq, ?_, ?_, h0, h1⟩
  · intro hpos
    unfold american_to_implied at hq
    rw [if_neg h, if_pos hpos] at hq
    exact (Option.some.inj hq).symm
  · intro hneg
    unfold american_to_implied at hq
    rw [if_neg h, if_neg (by omega)] at hq
    exact (Option.some.inj hq).symm

/-- Witness for C5 at odds -250: the implied probability exists, matches the
negative-odds formula and lies strictly between 0 and 1. -/
theorem C5_implied_probability_witness :
    ∃ q : ℚ, american_to_implied (-250) = some q ∧
      (0 < (-250 : ℤ) → q = 100 / (((-250 : ℤ) : ℚ) + 100)) ∧
      ((-250 : ℤ) < 0 →
        q = |((-250 : ℤ) : ℚ)| / (|((-250 : ℤ) : ℚ)| + 100)) ∧
      0 < q ∧ q < 1 :=
  C5_implied_probability.1 (-250) (by decide)

/-- C7: fair lines project to the offered point: with equal over and under
odds the de-vig normalization makes both weights 1/2 and the half-point
offsets cancel exactly. -/
theorem C7_projected_value_fair (odds : ℤ) (h : odds ≠ 0) (point : ℚ) :
    get_projected_value odds odds point = some point := by
  obtain ⟨q, hq⟩ := american_to_implied_isSome h
  obtain ⟨h0, _⟩ := american_to_implied_bounds hq
  have hne : q + q ≠ 0 := by positivity
  have hhalf : q / (q + q) = 1/2 := by
    rw [div_eq_iff hne]; ring
  simp only [get_projected_value, hq, Option.bind_eq_bind, Option.some_bind,
    Option.some.injEq]
  rw [hhalf]; ring

/-- Witness for C7 at odds -110 and point 11/2. -/
theorem C7_projected_value_fair_witness :
    get_projected_value (-110) (-110) (11/2) = some (11/2) :=
  C7_projected_value_fair (-110) (by decide) (11/2)

/-- Scanning a concatenation scans the left part first. -/
theorem pickMinAux_append (l m : List Row) (acc : Option Row) :
    pickMinAux acc (l ++ m) = pickMinAux (pickMinAux acc l) m := by
  induction l generalizing acc with
  | nil => rfl
  | cons r rs ih =>
      show pickMinAux _ (rs ++ m) = _
      rw [ih]
      rfl

/-- The scan result is the accumulator or a member of the scanned list. -/
theorem pickMinAux_result (acc : Option Row) (l : List Row) (b : Row)
    (h : pickMinAux acc l = some b) : acc = some b ∨ b ∈ l := by
  induction l generalizing acc with
  | nil => exact Or.inl h
  | cons r rs ih =>
      rcases ih _ h with hacc | hmem
      · cases acc with
        | none =>
            have hb : r = b := by simpa using hacc
            exact Or.inr (by simp [hb])
        | some a =>
            by_cases hlt : r.updated_dttm < a.updated_dttm
            · have hb : r = b := by simpa [pickMinAux, hlt] using hacc
              exact Or.inr (by simp [hb])
            · have hb : a = b := by simpa [pickMinAux, hlt] using hacc
              exact Or.inl (by simp [hb])
      · exact Or.inr (List.mem_cons_of_mem _ hmem)

/-- A row appended after rows of strictly larger update timestamps wins the
minimal-timestamp scan. -/
theorem pickMinAux_last_min (L : List Row) (r : Row)
    (h : ∀ x ∈ L, r.updated_dttm < x.updated_dttm) :
    pickMinAux none (L ++ [r]) = some r := by
  rw [pickMinAux_append]
  cases hL : pickMinAux none L with
  | none => rfl
  | some b =>
      have hb : b ∈ L := by
        rcases pickMinAux_result none L b hL with h1 | h1
        · cases h1
        · exact h1
      have hlt := h b hb
      simp [pickMinAux, hlt]

/-- C1 counterexample: after a second upsert for the same key the earliest
query no longer returns the first-seen (point, odds) pair (5.5, -110) but the
overwritten pair (6.5, -115): INSERT OR REPLACE destroys the baseline. -/
theorem C1_counterexample :
    ¬ earliestQuery (insert_or_replace (insert_or_replace [] c1RowFirst)
        c1RowSecond) "player_rush_yds" "Over" "Josh Jacobs" =
        some (some (11/2), -110) ∧
    earliestQuery (insert_or_replace [] c1RowFirst)
        "player_rush_yds" "Over" "Josh Jacobs" = some (some (11/2), -110) ∧
    earliestQuery (insert_or_replace (insert_or_replace [] c1RowFirst)
        c1RowSecond) "player_rush_yds" "Over" "Josh Jacobs" =
        some (some (13/2), -115) := by
  refine ⟨?_, ?_, ?_⟩ <;>
    norm_num [earliestQuery, insert_or_replace, pickMinAux, rowKey, mkRow,
      c1RowFirst, c1RowSecond]

/-- C1 amended: the primary-key upsert keeps at most one live record per key,
but a later upsert for an already-seen key replaces the stored point/odds in
place: the single live record for the written key is exactly the new row. -/
theorem C1_amended_upsert_overwrites (db : List Row) (r : Row)
    (h : db.Pairwise (fun a b => rowKey a ≠ rowKey b)) :
    (insert_or_replace db r).Pairwise (fun a b => rowKey a ≠ rowKey b) ∧
    r ∈ insert_or_replace db r ∧
    ∀ x ∈ insert_or_replace db r, rowKey x = rowKey r → x = r := by
  refine ⟨?_, ?_, ?_⟩
  · unfold insert_or_replace
    apply List.pairwise_append.mpr
    refine ⟨h.sublist (List.filter_sublist db), List.pairwise_singleton _ _, ?_⟩
    intro x hx y hy
    rcases List.mem_singleton.mp hy with rfl
    have hne := List.of_mem_filter hx
    simpa using hne
  · unfold insert_or_replace
    exact List.mem_append_right _ (List.mem_singleton.mpr rfl)
  · intro x hx hkey
    unfold insert_or_replace at hx
    rcases List.mem_append.mp hx with hx | hx
    · have hne := List.of_mem_filter hx
      simp only [decide_eq_true_eq] at hne
      exact absurd hkey hne
    · exact List.mem_singleton.mp hx

/-- Witness for the amended C1 at the empty store and the first concrete
observation. -/
theorem C1_amended_witness :
    (insert_or_replace [] c1RowFirst).Pairwise
      (fun a b => rowKey a ≠ rowKey b) ∧
    c1RowFirst ∈ insert_or_replace [] c1RowFirst ∧
    ∀ x ∈ insert_or_replace [] c1RowFirst,
      rowKey x = rowKey c1RowFirst → x = c1RowFirst :=
  C1_amended_upsert_overwrites [] c1RowFirst List.Pairwise.nil

/-- C2 counterexample: storing an observation under event evt2 and
immediately querying earliest for its key returns the (5.5, -110) pair of an
older record held under event evt1 for the same market, outcome label and
player, not the stored (7.5, -120): the earliest lookup ignores event id. -/
theorem C2_counterexample :
    earliestQuery (insert_or_replace [c2RowOld] c2RowNew)
      "player_rush_yds" "Over" "Josh Jacobs" = some (some (11/2), -110) ∧
    ¬ earliestQuery (insert_or_replace [c2RowOld] c2RowNew)
      "player_rush_yds" "Over" "Josh Jacobs" =
        some (c2RowNew.point_value, c2RowNew.odds) := by
  refine ⟨?_, ?_⟩ <;>
    norm_num [earliestQuery, insert_or_replace, pickMinAux, rowKey, mkRow,
      c2RowOld, c2RowNew]

/-- C2 amended: the store-then-read round trip returns exactly the stored
point and odds provided every other live record for the same (market key,
outcome label, player) triple - under any event id - carries a strictly
later update timestamp; the earliest lookup does not constrain event id. -/
theorem C2_amended_roundtrip (db : List Row) (r : Row)
    (h : ∀ x ∈ db, rowKey x ≠ rowKey r → x.market_type = r.market_type →
      x.outcome_type = r.outcome_type → x.player_name = r.player_name →
      r.updated_dttm < x.updated_dttm) :
    earliestQuery (insert_or_replace db r) r.market_type r.outcome_type
      r.player_name = some (r.point_value, r.odds) := by
  unfold earliestQuery insert_or_replace
  dsimp only
  rw [List.filter_append]
  have hr : List.filter (fun x => x.market_type == r.market_type &&
      x.outcome_type == r.outcome_type && x.player_name == r.player_name)
      [r] = [r] := by simp
  rw [hr]
  rw [pickMinAux_last_min]
  · rfl
  · intro x hx
    rcases List.mem_filter.mp hx with ⟨hx2, htrip⟩
    rcases List.mem_filter.mp hx2 with ⟨hxdb, hkey⟩
    simp only [Bool.and_eq_true, beq_iff_eq] at htrip
    simp only [decide_eq_true_eq] at hkey
    exact h x hxdb hkey htrip.1.1 htrip.1.2 htrip.2

/-- Witness for the amended C2: storing the evt2 observation into a store
whose only other record for the triple is strictly later. -/
theorem C2_amended_witness :
    earliestQuery (insert_or_replace [c1RowSecond] c2RowOld)
      c2RowOld.market_type c2RowOld.outcome_type c2RowOld.player_name =
      some (c2RowOld.point_value, c2RowOld.odds) :=
  C2_amended_roundtrip [c1RowSecond] c2RowOld (by
    intro x hx hkey h1 h2 h3
    rcases List.mem_singleton.mp hx with rfl
    norm_num [c1RowSecond, c2RowOld, mkRow])

/-- C8: the purge removes exactly the records whose commence time is strictly
before the US Eastern clock reading now, keeps all others; a record one
second before now is removed and a record one second after now is kept. -/
theorem C8_purge_commenced (now : ℤ) (db : List Row) (r : Row) :
    (r ∈ remove_commenced_games now db ↔
      r ∈ db ∧ ¬ r.event_commence_time < now) ∧
    (r ∈ db → r.event_commence_time = now - 1 →
      r ∉ remove_commenced_games now db) ∧
    (r ∈ db → r.event_commence_time = now + 1 →
      r ∈ remove_commenced_games now db) := by
  unfold remove_commenced_games
  refine ⟨?_, ?_, ?_⟩
  · simp [List.mem_filter]
  · intro hin heq
    simp only [List.mem_filter, decide_eq_true_eq, heq]
    intro hc
    exact hc.2 (by omega)
  · intro hin heq
    refine List.mem_filter.mpr ⟨hin, ?_⟩
    simp only [decide_eq_true_eq, heq]
    omega

/-- Witness for C8 with the clock at 100 and records commencing at 99 and
101. -/
theorem C8_purge_commenced_witness :
    c8Before ∉ remove_commenced_games 100 [c8Before, c8After] ∧
    c8After ∈ remove_commenced_games 100 [c8Before, c8After] :=
  ⟨(C8_purge_commenced 100 [c8Before, c8After] c8Before).2.1
      (by simp) rfl,
   (C8_purge_commenced 100 [c8Before, c8After] c8After).2.2
      (by simp) rfl⟩


/-- C3: the favorability flag is decided only for the labels Over, Under and
Yes; for Over it is Y exactly when the reference point exceeds the earliest
point or the points tie and the reference odds are below the earliest odds,
and N otherwise; for Under the same with the point comparison reversed; for
Yes it is Y exactly when the reference odds are below the earliest odds and N
otherwise; it is none when no baseline record exists or a required point is
missing, and the label No is always left unflagged. -/
theorem C3_favorability_flag :
    (∀ (pp ep : ℚ) (po eo : ℤ),
      is_favorable "Over" (some pp) po (some (some ep, eo)) =
        some (if ep < pp ∨ (pp = ep ∧ po < eo) then "Y" else "N")) ∧
    (∀ (pp ep : ℚ) (po eo : ℤ),
      is_favorable "Under" (some pp) po (some (some ep, eo)) =
        some (if pp < ep ∨ (pp = ep ∧ po < eo) then "Y" else "N")) ∧
    (∀ (p ep : Option ℚ) (po eo : ℤ),
      is_favorable "Yes" p po (some (ep, eo)) =
        some (if po < eo then "Y" else "N")) ∧
    (∀ (t : String) (p : Option ℚ) (po : ℤ),
      is_favorable t p po none = none) ∧
    (∀ (p : Option ℚ) (po : ℤ) (e : Option (Option ℚ × ℤ)),
      is_favorable "No" p po e = none) ∧
    (∀ (t : String) (p : Option ℚ) (po : ℤ) (e : Option (Option ℚ × ℤ)),
      t ≠ "Over" → t ≠ "Under" → t ≠ "Yes" → is_favorable t p po e = none) ∧
    (∀ (po eo : ℤ) (ep : Option ℚ),
      is_favorable "Over" none po (some (ep, eo)) = none) ∧
    (∀ (pp : ℚ) (po eo : ℤ),
      is_favorable "Over" (some pp) po (some (none, eo)) = none) ∧
    (∀ (po eo : ℤ) (ep : Option ℚ),
      is_favorable "Under" none po (some (ep, eo)) = none) ∧
    (∀ (pp : ℚ) (po eo : ℤ),
      is_favorable "Under" (some pp) po (some (none, eo)) = none) := by
  refine ⟨?_, ?_, ?_, ?_, ?_, ?_, ?_, ?_, ?_, ?_⟩
  · intro pp ep po eo
    simp only [is_favorable, String.reduceEq, reduceIte]
    norm_num
    by_cases h1 : ep < pp
    · rw [if_pos h1, if_pos (Or.inl h1)]
    · rw [if_neg h1]
      by_cases h2 : pp = ep ∧ po < eo
      · rw [if_pos h2, if_pos (Or.inr h2)]
      · rw [if_neg h2, if_neg ?_]
        rintro (h | h)
        exacts [h1 h, h2 h]
  · intro pp ep po eo
    simp only [is_favorable, String.reduceEq, reduceIte]
    norm_num
    by_cases h1 : pp < ep
    · rw [if_pos h1, if_pos (Or.inl h1)]
    · rw [if_neg h1]
      by_cases h2 : pp = ep ∧ po < eo
      · rw [if_pos h2, if_pos (Or.inr h2)]
      · rw [if_neg h2, if_neg ?_]
        rintro (h | h)
        exacts [h1 h, h2 h]
  · intro p ep po eo
    simp only [is_favorable, String.reduceEq, reduceIte]
    norm_num
    split_ifs <;> rfl
  · intro t p po
    simp only [is_favorable]
    split_ifs <;> rfl
  · intro p po e
    simp [is_favorable]
  · intro t p po e h1 h2 h3
    simp [is_favorable, h1, h2, h3]
  · intro po eo ep
    simp [is_favorable]
  · intro pp po eo
    simp [is_favorable]
  · intro po eo ep
    simp [is_favorable]
  · intro pp po eo
    simp [is_favorable]

/-- Witness for C3 at the label NoBet, which is none of Over, Under, Yes:
the flag stays undecided. -/
theorem C3_favorability_flag_witness :
    is_favorable "NoBet" (some 1) (-110) (some (some 1, -120)) = none :=
  C3_favorability_flag.2.2.2.2.2.1 "NoBet" (some 1) (-110)
    (some (some 1, -120)) (by decide) (by decide) (by decide)

/-- C9: both result buckets returned by the classifier are sorted descending
by the key pair (point_delta, delta) - point delta primary, probability delta
tie-break - as a permutation of the collected entries; entries built from
point-free outcomes carry point_delta 0 (lines 413-416), so an absent point
delta sorts as zero; three same-points entries keyed (2, 0.1), (2, 0.3),
(1, 0.9) come out ordered (2, 0.3), (2, 0.1), (1, 0.9). -/
theorem C9_buckets_sorted :
    (∀ (db : List Row) (mt : String) (pins outs : List Outcome),
      List.Sorted entryLE (find_favorable_lines db mt pins outs).1 ∧
      List.Sorted entryLE (find_favorable_lines db mt pins outs).2 ∧
      (find_favorable_lines db mt pins outs).1.Perm
        (processOutcomes db mt pins outs).1 ∧
      (find_favorable_lines db mt pins outs).2.Perm
        (processOutcomes db mt pins outs).2) ∧
    sortResults [rankEntry 2 (1/10), rankEntry 2 (3/10), rankEntry 1 (9/10)] =
      [rankEntry 2 (3/10), rankEntry 2 (1/10), rankEntry 1 (9/10)] := by
  constructor
  · intro db mt pins outs
    refine ⟨?_, ?_, ?_, ?_⟩ <;> simp only [find_favorable_lines, sortResults]
    · exact List.sorted_insertionSort entryLE _
    · exact List.sorted_insertionSort entryLE _
    · exact List.perm_insertionSort entryLE _
    · exact List.perm_insertionSort entryLE _
  · norm_num [sortResults, List.insertionSort, List.orderedInsert, entryLE,
      rankEntry]

/-- The outcome loop processes the head outcome and then the rest. -/
theorem processOutcomes_cons (db : List Row) (mt : String)
    (pins : List Outcome) (o : Outcome) (l : List Outcome) :
    processOutcomes db mt pins (o :: l) =
      ((processOutcome db mt pins o).1 ++ (processOutcomes db mt pins l).1,
       (processOutcome db mt pins o).2 ++ (processOutcomes db mt pins l).2) :=
  rfl

/-- An outcome whose own price or whose matched reference price is zero
contributes nothing: the ValueError from the probability model is caught and
the comparison is skipped. -/
theorem processOutcome_zero_skips (db : List Row) (mt : String)
    (pins : List Outcome) (o : Outcome)
    (h : o.price = 0 ∨ ∃ p, pins.find? (fun x =>
        x.description == o.description && x.name == o.name) = some p ∧
        p.price = 0) :
    processOutcome db mt pins o = ([], []) := by
  cases hf : pins.find? (fun x =>
      x.description == o.description && x.name == o.name) with
  | none => simp only [processOutcome, hf]
  | some p =>
    rcases h with h | ⟨p2, hp2, hz⟩
    · have h2 : american_to_implied o.price = none :=
        (american_to_implied_none_iff o.price).mpr h
      simp only [processOutcome, hf, h2]
      cases american_to_implied p.price <;> rfl
    · rw [hf] at hp2
      have hpp : p = p2 := Option.some.inj hp2
      subst hpp
      have h2 : american_to_implied p.price = none :=
        (american_to_implied_none_iff p.price).mpr hz
      simp only [processOutcome, hf, h2]

/-- C6: the probability model fails exactly on American odds of zero, and
when that failure is raised for an outcome comparison the classifier skips
only that outcome - removing it from the processed list leaves every bucket
unchanged - and keeps processing the remaining outcomes of the market. -/
theorem C6_zero_odds_skipped :
    (∀ odds : ℤ, american_to_implied odds = none ↔ odds = 0) ∧
    (∀ (db : List Row) (mt : String) (pins xs ys : List Outcome)
      (o : Outcome),
      (o.price = 0 ∨ ∃ p, pins.find? (fun x =>
          x.description == o.description && x.name == o.name) = some p ∧
          p.price = 0) →
      processOutcomes db mt pins (xs ++ o :: ys) =
        processOutcomes db mt pins (xs ++ ys)) := by
  refine ⟨american_to_implied_none_iff, ?_⟩
  intro db mt pins xs ys o h
  induction xs with
  | nil =>
      show processOutcomes db mt pins (o :: ys) = _
      rw [processOutcomes_cons, processOutcome_zero_skips db mt pins o h]
      simp
  | cons x xs ih =>
      show processOutcomes db mt pins (x :: (xs ++ o :: ys)) =
        processOutcomes db mt pins (x :: (xs ++ ys))
      rw [processOutcomes_cons, processOutcomes_cons, ih]

/-- Witness for C6: dropping a zero-priced outcome quoted between two healthy
outcomes leaves the market result unchanged. -/
theorem C6_zero_odds_skipped_witness :
    processOutcomes [] "player_anytime_td" [c6Other]
      ([c6Other] ++ c6Outcome :: [c6Other]) =
      processOutcomes [] "player_anytime_td" [c6Other]
        ([c6Other] ++ [c6Other]) :=
  C6_zero_odds_skipped.2 [] "player_anytime_td" [c6Other] [c6Other]
    [c6Other] c6Outcome (Or.inl rfl)

/-- C4: a matched point-bearing outcome lands in the different-points bucket
exactly when the current point is strictly more favorable than the reference
point in the direction of the label (below it for Over, above it for Under),
the reference implied probability is at least 1/2, and either the absolute
point delta - reference minus current for Over, current minus reference
otherwise - is at least 1 or the probability delta is at least 2. -/
theorem C4_diff_points_bucket (db : List Row) (mt : String)
    (pins : List Outcome) (o p : Outcome)
    (cur pp pin_prob other_prob : ℚ)
    (hfind : pins.find? (fun x =>
      x.description == o.description && x.name == o.name) = some p)
    (hcur : o.point = some cur) (hpp : p.point = some pp)
    (hpin : american_to_implied p.price = some pin_prob)
    (hoth : american_to_implied o.price = some other_prob) :
    (processOutcome db mt pins o).1 ≠ [] ↔
      (((o.name = "Over" ∧ cur < pp) ∨ (o.name = "Under" ∧ pp < cur)) ∧
       1/2 ≤ pin_prob ∧
       (1 ≤ |(if o.name = "Over" then pp - cur else cur - pp)| ∨
        2 ≤ pin_prob - other_prob)) := by
  simp only [processOutcome, hfind, hpin, hoth, hcur, hpp,
    calculate_point_delta, Option.isNone_some, Option.isSome_some,
    Option.getD_some]
  by_cases hover : o.name = "Over"
  · simp only [hover, String.reduceEq]
    norm_num
    split_ifs with hc hc2
    · constructor
      · intro hskip
        obtain ⟨hd, hh, ho⟩ := hc
        refine ⟨hd, hh, ho.imp (fun h1 => ?_) id⟩
        rw [abs_of_nonneg (by linarith)]
        exact h1
      · intro hskip
        simp
    · constructor
      · intro hne
        exact absurd rfl hne
      · rintro ⟨hd, hh, ho⟩
        refine absurd ⟨hd, hh, ho.imp (fun h1 => ?_) id⟩ hc
        rw [abs_of_nonneg (by linarith)] at h1
        exact h1
    · constructor
      · intro hne
        exact absurd rfl hne
      · rintro ⟨hd, hh, ho⟩
        refine absurd ⟨hd, hh, ho.imp (fun h1 => ?_) id⟩ hc
        rw [abs_of_nonneg (by linarith)] at h1
        exact h1
  · by_cases hunder : o.name = "Under"
    · simp only [hunder, String.reduceEq]
      norm_num
      split_ifs with hc hc2
      · constructor
        · intro hskip
          obtain ⟨hd, hh, ho⟩ := hc
          refine ⟨hd, hh, ho.imp (fun h1 => ?_) id⟩
          rw [abs_of_nonneg (by linarith)]
          exact h1
        · intro hskip
          simp
      · constructor
        · intro hne
          exact absurd rfl hne
        · rintro ⟨hd, hh, ho⟩
          refine absurd ⟨hd, hh, ho.imp (fun h1 => ?_) id⟩ hc
          rw [abs_of_nonneg (by linarith)] at h1
          exact h1
      · constructor
        · intro hne
          exact absurd rfl hne
        · rintro ⟨hd, hh, ho⟩
          refine absurd ⟨hd, hh, ho.imp (fun h1 => ?_) id⟩ hc
          rw [abs_of_nonneg (by linarith)] at h1
          exact h1
    · split_ifs <;> simp_all

/-- Witness for C4: the rushing-yards Over 5.0 quote against the reference
Over 6.5 at -120. -/
theorem C4_diff_points_bucket_witness :
    (processOutcome [] "player_rush_yds" [c4Pin] c4Outcome).1 ≠ [] ↔
      (((c4Outcome.name = "Over" ∧ (5 : ℚ) < 13/2) ∨
        (c4Outcome.name = "Under" ∧ (13 : ℚ)/2 < 5)) ∧
       1/2 ≤ (6 : ℚ)/11 ∧
       (1 ≤ |(if c4Outcome.name = "Over" then (13 : ℚ)/2 - 5
              else 5 - 13/2)| ∨
        2 ≤ (6 : ℚ)/11 - 11/21)) :=
  C4_diff_points_bucket [] "player_rush_yds" [c4Pin] c4Outcome c4Pin
    5 (13/2) (6/11) (11/21) rfl rfl rfl
    (by norm_num [c4Pin, american_to_implied])
    (by norm_num [c4Outcome, american_to_implied])

/-- A point-free outcome only ever contributes same-points entries carrying
no point. -/
theorem processOutcome_snd_of_none (db : List Row) (mt : String)
    (pins : List Outcome) (o : Outcome) (hpt : o.point = none) :
    ∀ e ∈ (processOutcome db mt pins o).2, e.point = none := by
  intro e he
  cases hf : pins.find? (fun x =>
      x.description == o.description && x.name == o.name) with
  | none =>
      simp only [processOutcome, hf] at he
      simp at he
  | some p =>
    cases hp : american_to_implied p.price with
    | none =>
        simp only [processOutcome, hf, hp] at he
        simp at he
    | some pin_prob =>
      cases ho : american_to_implied o.price with
      | none =>
          simp only [processOutcome, hf, hp, ho] at he
          simp at he
      | some other_prob =>
          simp only [processOutcome, hf, hp, ho, hpt] at he
          split_ifs at he <;>
            first
              | (rw [List.mem_singleton] at he; subst he; rfl)
              | simp at he

/-- A point-bearing outcome never reaches the same-points bucket: the guard
needs a probability delta above 3, impossible for two implied probabilities
in (0, 1). -/
theorem processOutcome_snd_of_some (db : List Row) (mt : String)
    (pins : List Outcome) (o : Outcome) (cur : ℚ)
    (hpt : o.point = some cur) :
    (processOutcome db mt pins o).2 = [] := by
  cases hf : pins.find? (fun x =>
      x.description == o.description && x.name == o.name) with
  | none => simp only [processOutcome, hf]
  | some p =>
    cases hp : american_to_implied p.price with
    | none =>
        simp only [processOutcome, hf, hp]
    | some pin_prob =>
      cases ho : american_to_implied o.price with
      | none => simp only [processOutcome, hf, hp, ho]
      | some other_prob =>
        have hb1 := american_to_implied_bounds hp
        have hb2 := american_to_implied_bounds ho
        simp only [processOutcome, hf, hp, ho, hpt, Option.isNone_some,
          Bool.false_eq_true, if_false]
        split
        · rfl
        · split
          · rfl
          · split
            next hc5 =>
              exact absurd hc5.2
                (not_lt.mpr (by linarith [hb1.2, hb2.1]))
            next => rfl

/-- C10: any difference of two implied probabilities lies strictly between
-1 and 1, so the probability-delta-at-least-2 disjunct never holds and the
above-3 equal-points guard is unreachable; consequently every entry of the
same-points bucket comes from a point-free (binary) outcome. -/
theorem C10_same_points_binary :
    (∀ (a b : ℤ) (pa pb : ℚ), american_to_implied a = some pa →
      american_to_implied b = some pb →
      -1 < pa - pb ∧ pa - pb < 1 ∧ ¬ 2 ≤ pa - pb ∧ ¬ 3 < pa - pb) ∧
    (∀ (db : List Row) (mt : String) (pins outs : List Outcome),
      ∀ e ∈ (processOutcomes db mt pins outs).2, e.point = none) := by
  constructor
  · intro a b pa pb ha hb
    have h1 := american_to_implied_bounds ha
    have h2 := american_to_implied_bounds hb
    refine ⟨by linarith, by linarith, by linarith, by linarith⟩
  · intro db mt pins outs
    induction outs with
    | nil =>
        intro e he
        simp [processOutcomes] at he
    | cons o l ih =>
        intro e he
        rw [processOutcomes_cons] at he
        rcases List.mem_append.mp he with he | he
        · cases hpt : o.point with
          | none => exact processOutcome_snd_of_none db mt pins o hpt e he
          | some cur =>
              rw [processOutcome_snd_of_some db mt pins o cur hpt] at he
              simp at he
        · exact ih e he

/-- Witness for C10 at implied probabilities of +100 and -120. -/
theorem C10_same_points_binary_witness :
    -1 < (1 : ℚ)/2 - 6/11 ∧ (1 : ℚ)/2 - 6/11 < 1 ∧
      ¬ 2 ≤ (1 : ℚ)/2 - 6/11 ∧ ¬ 3 < (1 : ℚ)/2 - 6/11 :=
  C10_same_points_binary.1 100 (-120) (1/2) (6/11)
    (by norm_num [american_to_implied]) (by norm_num [american_to_implied])
